import Mathlib

/-!
Verification development for the RaggedWiki chunking and retrieval-scoring
pipeline.  The Python sources (simple_rag_system/chunker.py, ingest.py,
query.py, config.py and document-parser/scripts/parse_document_structure.py)
are shallowly embedded below: strings are lists of characters, the tokenizer
collaborator is an explicit record, the configuration module is a namespace of
constants, and the `while` loop of the naive chunker is given fuel (it is not
structurally terminating; that fact is itself one of the results).
-/

namespace RaggedWiki

/-- Python strings are modelled as lists of characters. -/
abbrev Str := List Char

/-- Python's ASCII whitespace set, as used by `str.strip`, `str.split()` and
the regex class `\s`: space, tab, newline, carriage return, vertical tab,
form feed.  (Python also treats some rarer Unicode code points as whitespace;
none of the properties below depend on the classification of those.) -/
def isPySpace (c : Char) : Bool :=
  (c == ' ') || (c == '\t') || (c == '\n') || (c == '\r') || (c == '\x0b') || (c == '\x0c')

/-- Model of Python `content.split('\n')`: splitting an empty string gives one
empty line, and a trailing newline gives a trailing empty line. -/
def pyLines : Str → List Str
  | [] => [[]]
  | c :: rest =>
    let ls := pyLines rest
    if c = '\n' then [] :: ls
    else
      match ls with
      | [] => [[c]]
      | l :: t => (c :: l) :: t

/-- Model of Python `'\n'.join(lines)`. -/
def joinLines (ls : List Str) : Str :=
  List.intercalate ['\n'] ls

/-- Model of Python `s.strip()`. -/
def pyStrip (s : Str) : Str :=
  ((s.dropWhile isPySpace).reverse.dropWhile isPySpace).reverse

/-- Does `s` start with the pattern `pat`? -/
def strStarts : Str → Str → Bool
  | _, [] => true
  | [], _ :: _ => false
  | c :: s, p :: ps => (c == p) && strStarts s ps

/-- Model of Python `pat in s` (substring containment). -/
def strContains : Str → Str → Bool
  | s, pat =>
    if strStarts s pat then true
    else
      match s with
      | [] => false
      | _ :: t => strContains t pat

/-- Helper for `wordCount`: counts maximal non-whitespace runs; the boolean
records whether the previous character was inside a word. -/
def wordCountAux : Str → Bool → Nat
  | [], _ => 0
  | c :: rest, inWord =>
    if isPySpace c then wordCountAux rest false
    else (if inWord then 0 else 1) + wordCountAux rest true

/-- Model of Python `len(s.split())`: the number of whitespace-separated
words. -/
def wordCount (s : Str) : Nat :=
  wordCountAux s false

/-- Model of Python `s.rfind(sub)`: the largest index at which `sub` occurs in
`s`, or `none` when absent (Python returns `-1`, which never passes the `>`
threshold tests that consume it). -/
def rfindPos (sub s : Str) : Option Nat :=
  ((List.range (s.length + 1)).filter (fun i => strStarts (s.drop i) sub)).getLast?

/-- Model of Python `s.lower()` (ASCII, as used on metadata keys). -/
def pyLower (s : Str) : Str := s.map Char.toLower

/-- Model of Python `s.upper()`. -/
def pyUpper (s : Str) : Str := s.map Char.toUpper

/-- Model of Python `s.replace(' ', '_')`. -/
def replaceSpaceUnderscore (s : Str) : Str :=
  s.map (fun c => if c = ' ' then '_' else c)

/-- The tokenizer collaborator (spec section 6): an exact text-to-token-id
codec; `tiktoken` in the source. -/
structure Tokenizer (τ : Type) where
  encode : Str → List τ
  decode : List τ → Str

/-- A concrete tokenizer instance in which every character is one token; it is
round-trip exact (`decode (encode s) = s` definitionally), as the spec requires
of any tokenizer implementation. -/
def charTok : Tokenizer Char :=
  ⟨fun s => s, fun l => l⟩

/-- Model of `Chunker.count_tokens`: `len(encoding.encode(text))`. -/
def tkCount {τ : Type} (tk : Tokenizer τ) (s : Str) : Nat :=
  (tk.encode s).length

namespace Config

/-- config.LAYOUT_AWARE_MAX_TOKENS -/
def layoutAwareMaxTokens : Nat := 900

/-- config.LAYOUT_AWARE_MIN_TOKENS -/
def layoutAwareMinTokens : Nat := 200

/-- config.LAYOUT_AWARE_MERGE_SMALL -/
def layoutAwareMergeSmall : Bool := true

/-- config.NAIVE_CHUNK_SIZE -/
def naiveChunkSize : Nat := 512

/-- config.NAIVE_OVERLAP -/
def naiveOverlap : Nat := 50

/-- config.ABSTRACT_MAX_TOKENS -/
def abstractMaxTokens : Nat := 200

/-- config.ABSTRACT_GENERATION_METHOD -/
def abstractGenerationMethod : Str := "extractive".data

/-- config.CHUNKING_STRATEGY -/
def chunkingStrategy : Str := "layout-aware".data

/-- config.DEFAULT_TOP_K -/
def defaultTopK : Nat := 3

/-- config.MIN_SIMILARITY_SCORE (0.3; scores are modelled over the exact
rationals). -/
def minSimilarityScore : ℚ := 3 / 10

end Config

/-- A chunk record as produced by the chunking strategies.  The metadata
key-value pairs spread into every chunk dict (`**metadata`) are carried
unchanged by all strategies and do not interact with any claim, so they are
omitted from the record; `merged` is absent (modelled `false`) until the merge
pass sets it, and `abstract`/`abstractTokens` are absent until the
abstract-first pass sets them. -/
structure Chunk where
  content : Str
  sectionTitle : Str
  headingLevel : Str
  tokens : Nat
  chunkIndex : Nat
  startToken : Option Int := none
  endToken : Option Int := none
  merged : Bool := false
  abstract : Option Str := none
  abstractTokens : Option Nat := none
deriving DecidableEq, Repr

/-- Capture group semantics of `\s+(.+)$` applied to `rest` (the text after
the leading hash marks of a heading regex): at least one whitespace character,
then the greedy-maximal whitespace run, then a nonempty remainder as the
group; when `rest` is entirely whitespace the engine backtracks and the group
is the final whitespace character (possible only when `rest` has length at
least two). -/
def hashTitleAfter (rest : Str) : Option Str :=
  match rest with
  | [] => none
  | c :: _ =>
    if isPySpace c then
      let t := rest.dropWhile isPySpace
      if t = [] then
        if rest.length ≥ 2 then some (rest.drop (rest.length - 1)) else none
      else some t
    else none

/-- Model of `re.match(r'^##\s+(.+)$', line)` in `_split_by_h2`, returning the
captured title. -/
def h2Match (line : Str) : Option Str :=
  match line with
  | '#' :: '#' :: rest => hashTitleAfter rest
  | _ => none

/-- Model of `re.match(r'^###\s+(.+)$', line)` in `_split_by_h3`. -/
def h3Match (line : Str) : Option Str :=
  match line with
  | '#' :: '#' :: '#' :: rest => hashTitleAfter rest
  | _ => none

/-- The shared loop of `_split_by_h2` / `_split_by_h3`: walk the lines,
starting a new titled section at each matching heading line; `cur` holds the
current section's lines in reverse.  A pending section is saved only when it
has accumulated at least one line (`if current_section:`). -/
def splitLoopGo (hm : Str → Option Str) : List Str → List Str → Str → List (Str × Str)
  | [], cur, title =>
    if cur = [] then [] else [(title, pyStrip (joinLines cur.reverse))]
  | line :: rest, cur, title =>
    match hm line with
    | some newTitle =>
      (if cur = [] then [] else [(title, pyStrip (joinLines cur.reverse))])
        ++ splitLoopGo hm rest [line] newTitle
    | none => splitLoopGo hm rest (line :: cur) title

/-- Model of `LayoutAwareChunker._split_by_h2`. -/
def splitByH2 (content : Str) : List (Str × Str) :=
  splitLoopGo h2Match (pyLines content) [] "Introduction".data

/-- Model of `LayoutAwareChunker._split_by_h3`. -/
def splitByH3 (content : Str) : List (Str × Str) :=
  splitLoopGo h3Match (pyLines content) [] "Section".data

/-- The inner loop of `LayoutAwareChunker.chunk` for an oversized section:
append one h3-tagged chunk per subsection, each indexed by the running length
of the chunk list. -/
def appendH3Subs {τ : Type} (tk : Tokenizer τ) (title : Str) :
    List (Str × Str) → List Chunk → List Chunk
  | [], acc => acc
  | (subTitle, subContent) :: rest, acc =>
    appendH3Subs tk title rest
      (acc ++ [{ content := subContent
                 sectionTitle := title ++ " - ".data ++ subTitle
                 headingLevel := "h3".data
                 tokens := tkCount tk subContent
                 chunkIndex := acc.length }])

/-- The main loop of `LayoutAwareChunker.chunk` (before the merge pass): skip
sections under 50 exact tokens, split oversized sections at H3 boundaries,
otherwise emit one h2-tagged chunk; `chunk_index` is the running length of the
chunk list. -/
def layoutGo {τ : Type} (tk : Tokenizer τ) : List (Str × Str) → List Chunk → List Chunk
  | [], acc => acc
  | (title, sectionContent) :: rest, acc =>
    let tokenCount := tkCount tk sectionContent
    if tokenCount < 50 then layoutGo tk rest acc
    else if tokenCount > Config.layoutAwareMaxTokens then
      layoutGo tk rest (appendH3Subs tk title (splitByH3 sectionContent) acc)
    else
      layoutGo tk rest
        (acc ++ [{ content := sectionContent
                   sectionTitle := title
                   headingLevel := "h2".data
                   tokens := tokenCount
                   chunkIndex := acc.length }])

/-- `LayoutAwareChunker.chunk` up to but excluding the merge pass. -/
def layoutChunkPre {τ : Type} (tk : Tokenizer τ) (content : Str) : List Chunk :=
  layoutGo tk (splitByH2 content) []

/-- Model of `LayoutAwareChunker._merge_small_chunks`: a single left-to-right
pass; an undersized chunk with a successor is concatenated with it (blank line
between contents, titles joined by " + ", token count recomputed, `merged`
set), keeping every other field — including `chunk_index` — of the first
constituent, and the scan then skips both. -/
def mergeSmallChunks {τ : Type} (tk : Tokenizer τ) : List Chunk → List Chunk
  | [] => []
  | [c] => [c]
  | c :: d :: rest =>
    if c.tokens < Config.layoutAwareMinTokens then
      let mergedContent := c.content ++ "\n\n".data ++ d.content
      { c with
          content := mergedContent
          sectionTitle := c.sectionTitle ++ " + ".data ++ d.sectionTitle
          tokens := tkCount tk mergedContent
          merged := true } :: mergeSmallChunks tk rest
    else c :: mergeSmallChunks tk (d :: rest)

/-- Model of `LayoutAwareChunker.chunk` with the configured merge toggle. -/
def layoutChunk {τ : Type} (tk : Tokenizer τ) (content : Str) : List Chunk :=
  if Config.layoutAwareMergeSmall then mergeSmallChunks tk (layoutChunkPre tk content)
  else layoutChunkPre tk content

/-- Python slice `l[a:b]` with int indices: negative indices count from the
end and both bounds clamp to the list. -/
def pySlice {τ : Type} (l : List τ) (a b : Int) : List τ :=
  let n : Int := l.length
  let a' := if a < 0 then max 0 (n + a) else min a n
  let b' := if b < 0 then max 0 (n + b) else min b n
  (l.take b'.toNat).drop a'.toNat

/-- One chunk record of `NaiveChunker.chunk` for the token range
`[start, end)`; `idx` is the number of chunks emitted so far. -/
def naiveChunkRecord {τ : Type} (tk : Tokenizer τ) (tokens : List τ)
    (start e : Int) (idx : Nat) : Chunk :=
  let chunkTokens := pySlice tokens start e
  { content := tk.decode chunkTokens
    sectionTitle := "Chunk ".data ++ (toString (idx + 1)).data
    headingLevel := "none".data
    tokens := chunkTokens.length
    chunkIndex := idx
    startToken := some start
    endToken := some e }

/-- The `while start < len(tokens)` loop of `NaiveChunker.chunk`, given fuel.
Each iteration emits the chunk for `[start, min(start + chunk_size, total))`
and then sets `start = end - overlap` (exactly as the source does — not
`start + chunk_size - overlap`).  `none` means the fuel ran out with the loop
condition still true, i.e. the loop has not terminated within `fuel`
iterations. -/
def naiveLoopFuel {τ : Type} (tk : Tokenizer τ) (tokens : List τ) :
    Nat → Int → Nat → Option (List Chunk)
  | 0, start, _ =>
    if start < (tokens.length : Int) then none else some []
  | fuel + 1, start, idx =>
    if start < (tokens.length : Int) then
      let e := min (start + (Config.naiveChunkSize : Int)) (tokens.length : Int)
      (naiveLoopFuel tk tokens fuel (e - (Config.naiveOverlap : Int)) (idx + 1)).map
        (naiveChunkRecord tk tokens start e idx :: ·)
    else some []

/-- Model of `NaiveChunker.chunk`: tokenize the whole document once, then run
the sliding-window loop from `start = 0` with the given fuel. -/
def naiveChunkFuel {τ : Type} (tk : Tokenizer τ) (content : Str) (fuel : Nat) :
    Option (List Chunk) :=
  naiveLoopFuel tk (tk.encode content) fuel 0 0

/-- The per-marker step of `AbstractFirstChunker._extractive_abstract`: Python
`last_pos = abstract.rfind(m); if last_pos > len(abstract) * 0.7`.  The float
comparison `p > len * 0.7` agrees with the exact rational comparison
`10 * p > 7 * len` for all list lengths arising here (0.7's double rounds the
products to at most one part in 10^15, never bridging the gap to an
integer). -/
def tryMarker (abstract : Str) (m : Str) : Option Str :=
  match rfindPos m abstract with
  | some p => if 10 * p > 7 * abstract.length then some (abstract.take (p + 1)) else none
  | none => none

/-- Model of `AbstractFirstChunker._extractive_abstract`: decode the first
ABSTRACT_MAX_TOKENS tokens, then run the `for char in ['. ', '! ', '? ']`
loop, truncating at the first marker (in that order) whose last occurrence
lies past 70% of the abstract, and breaking. -/
def extractiveAbstract {τ : Type} (tk : Tokenizer τ) (content : Str) : Str :=
  let abstract := tk.decode ((tk.encode content).take Config.abstractMaxTokens)
  match tryMarker abstract ". ".data with
  | some r => r
  | none =>
    match tryMarker abstract "! ".data with
    | some r => r
    | none =>
      match tryMarker abstract "? ".data with
      | some r => r
      | none => abstract

/-- Model of `AbstractFirstChunker._generate_abstract`: the non-extractive
mode is unimplemented and falls through to the extractive path. -/
def generateAbstract {τ : Type} (tk : Tokenizer τ) (content : Str) : Str :=
  if Config.abstractGenerationMethod = "extractive".data then extractiveAbstract tk content
  else extractiveAbstract tk content

/-- Model of `AbstractFirstChunker.chunk`: layout-aware chunking followed by
setting `abstract` and `abstract_tokens` on every chunk. -/
def abstractFirstChunk {τ : Type} (tk : Tokenizer τ) (content : Str) : List Chunk :=
  (layoutChunk tk content).map fun ch =>
    { ch with
        abstract := some (generateAbstract tk ch.content)
        abstractTokens := some (tkCount tk (generateAbstract tk ch.content)) }

/-- The three chunking strategies of the factory. -/
inductive ChunkerKind where
  | layoutAware
  | naive
  | abstractFirst
deriving DecidableEq, Repr

/-- Model of `get_chunker`: `None` falls back to the configured strategy name;
the three recognized names map to their strategies; anything else raises
`ValueError` (modelled as `Except.error` carrying the message). -/
def getChunker (strategy : Option Str) : Except Str ChunkerKind :=
  let s := strategy.getD Config.chunkingStrategy
  if s = "layout-aware".data then .ok .layoutAware
  else if s = "naive".data then .ok .naive
  else if s = "abstract-first".data then .ok .abstractFirst
  else .error ("Unknown chunking strategy: ".data ++ s)

/-- Running one chunker over one document (the chunking part of
`DocumentIndexer.index_file`); the naive strategy needs fuel and may fail to
terminate. -/
def runChunker {τ : Type} (tk : Tokenizer τ) (fuel : Nat) :
    ChunkerKind → Str → Option (List Chunk)
  | .layoutAware, d => some (layoutChunk tk d)
  | .abstractFirst, d => some (abstractFirstChunk tk d)
  | .naive, d => naiveChunkFuel tk d fuel

/-- Model of `DocumentIndexer.index_directory`: the chunker factory is
consulted first (source line 118, before any file is listed, read or
chunked), so an unrecognized strategy name yields the error with no document
processed. -/
def indexDirectory {τ : Type} (tk : Tokenizer τ) (fuel : Nat)
    (strategy : Option Str) (docs : List Str) :
    Except Str (List (Option (List Chunk))) :=
  match getChunker strategy with
  | .error e => .error e
  | .ok kind => .ok (docs.map (runChunker tk fuel kind))

/-!
Metadata extraction (`MetadataExtractor.extract_from_content` in ingest.py).
The blockquote pattern is `>\s*\*\*(.+?):\*\*\s*(.+?)(?:\s*\||$)`, scanned
with `re.finditer`.  The pattern is embedded directly: literals are matched
by pattern matching, `\s*` by greedy whitespace runs (no backtracking is
needed before a non-whitespace literal), and the two lazy groups by
shortest-first capture functions.
-/

/-- The `:\*\*` literal that terminates the lazy key group, returning the
remainder after it. -/
def keyStop (s : Str) : Option Str :=
  match s with
  | ':' :: '*' :: '*' :: r => some r
  | _ => none

/-- The `(?:\s*\||$)` terminator of the lazy value group: first the
alternative `\s*\|` (greedy whitespace then a literal pipe, both consumed),
else `$`, which in a non-MULTILINE pattern matches at the end of the string or
just before a final trailing newline and consumes nothing. -/
def valStop (s : Str) : Option Str :=
  match s.dropWhile isPySpace with
  | '|' :: r => some r
  | _ => if s = [] ∨ s = ['\n'] then some s else none

/-- Lazy capture `(.+?)` followed by the terminator `stop`: consume one
non-newline character at a time (shortest first), checking the terminator
after each; returns the captured text and the remainder after the
terminator. -/
def lazyCaptureGo (stop : Str → Option Str) (acc : Str) : Str → Option (Str × Str)
  | [] => none
  | c :: rest =>
    if c = '\n' then none
    else
      match stop rest with
      | some rem => some (acc ++ [c], rem)
      | none => lazyCaptureGo stop (acc ++ [c]) rest

/-- The `\s*(.+?)(?:\s*\||$)` tail of the pattern: the greedy `\s*` prefers to
consume `k` whitespace characters and backtracks one at a time when the value
group cannot match after it. -/
def matchValueFrom (r : Str) : Nat → Option (Str × Str)
  | 0 => lazyCaptureGo valStop [] r
  | k + 1 =>
    match lazyCaptureGo valStop [] (r.drop (k + 1)) with
    | some res => some res
    | none => matchValueFrom r k

/-- Attempt the whole blockquote pattern anchored at the start of `s`,
returning the key group, value group, and the remainder of the string after
the match. -/
def matchBlockquoteAt (s : Str) : Option (Str × Str × Str) :=
  match s with
  | '>' :: r1 =>
    match r1.dropWhile isPySpace with
    | '*' :: '*' :: r3 =>
      match lazyCaptureGo keyStop [] r3 with
      | some (k, r4) =>
        match matchValueFrom r4 (r4.takeWhile isPySpace).length with
        | some (v, r6) => some (k, v, r6)
        | none => none
      | none => none
    | _ => none
  | _ => none

/-- `re.finditer` scanning: try the pattern at each position left to right,
resuming after the end of each (nonempty) match.  Every match here consumes at
least one character, so fuel equal to the string length always suffices. -/
def finditerGo : Nat → Str → List (Str × Str)
  | 0, _ => []
  | fuel + 1, s =>
    match s with
    | [] => []
    | _ :: rest =>
      match matchBlockquoteAt s with
      | some (k, v, rem) => (k, v) :: finditerGo fuel rem
      | none => finditerGo fuel rest

/-- All `(key, value)` group pairs of the blockquote pattern over the
document, in match order. -/
def finditerKV (s : Str) : List (Str × Str) :=
  finditerGo s.length s

/-- Python dict lookup on the insertion-ordered association list. -/
def dictGet : List (Str × Str) → Str → Option Str
  | [], _ => none
  | (k, v) :: rest, key => if k = key then some v else dictGet rest key

/-- Python dict assignment: update an existing key in place, else append. -/
def dictSet : List (Str × Str) → Str → Str → List (Str × Str)
  | [], key, value => [(key, value)]
  | (k, v) :: rest, key, value =>
    if k = key then (k, value) :: rest else (k, v) :: dictSet rest key value

/-- Model of `MetadataExtractor._infer_content_type`: first matching path
substring wins; no match gives "document". -/
def inferContentType (path : Str) : Str :=
  if strContains path "/runbooks/".data then "runbook".data
  else if strContains path "/how-to/".data then "how-to".data
  else if strContains path "/incidents/".data then "incident".data
  else if strContains path "/process/".data then "process".data
  else if strContains path "/apps/".data then "service-overview".data
  else if strContains path "/event-prep/".data then "event-prep".data
  else "document".data

/-- Model of `re.search(r'^#\s+(.+)$', content, re.MULTILINE)`: the first line
beginning with a single hash followed by whitespace and a nonempty title; the
group is used without stripping. -/
def findH1Title (content : Str) : Option Str :=
  (pyLines content).findSome? fun l =>
    match l with
    | '#' :: rest => hashTitleAfter rest
    | _ => none

/-- Model of `MetadataExtractor.extract_from_content`: the base fields, then
each blockquote match keyed by the lower-cased underscore-joined key, then the
H1 title, then the `service` → `service_name` copy and the `severity`
upper-casing. -/
def extractFromContent (content path : Str) : List (Str × Str) :=
  let md0 := [("source_file".data, path), ("content_type".data, inferContentType path)]
  let md1 := (finditerKV content).foldl
    (fun d kv => dictSet d (replaceSpaceUnderscore (pyLower kv.1)) (pyStrip kv.2)) md0
  let md2 :=
    match findH1Title content with
    | some t => dictSet md1 "title".data t
    | none => md1
  let md3 :=
    match dictGet md2 "service".data with
    | some v => dictSet md2 "service_name".data v
    | none => md2
  match dictGet md3 "severity".data with
  | some v => dictSet md3 "severity".data (pyUpper v)
  | none => md3

/-!
Retrieval scorer and query pipeline (`RAGQueryEngine.query` in query.py).
Distances and scores are modelled over the exact rationals.
-/

/-- One raw result row of the external vector index (ChromaDB's parallel
arrays `ids`/`documents`/`metadatas`/`distances`, aligned by index). -/
structure Candidate where
  cid : Str
  doc : Str
  meta : List (Str × Str)
  dist : ℚ
deriving DecidableEq, Repr

/-- A formatted query result. -/
structure QueryResult where
  rid : Str
  content : Str
  meta : List (Str × Str)
  score : ℚ
deriving DecidableEq, Repr

/-- Model of `similarity = 1 / (1 + distance)`; division by zero (Python
`ZeroDivisionError` at distance `-1`) is `none`. -/
def similarityScore (d : ℚ) : Option ℚ :=
  if 1 + d = 0 then none else some (1 / (1 + d))

/-- Model of `top_k = top_k or config.DEFAULT_TOP_K`: `None` and the falsy
value `0` both yield the default. -/
def effTopK (topK : Option Nat) : Nat :=
  match topK with
  | none => Config.defaultTopK
  | some k => if k = 0 then Config.defaultTopK else k

/-- Model of `min_score = min_score or config.MIN_SIMILARITY_SCORE`: `None`
and the falsy value `0.0` both yield the default. -/
def effMinScore (minScore : Option ℚ) : ℚ :=
  match minScore with
  | none => Config.minSimilarityScore
  | some q => if q = 0 then Config.minSimilarityScore else q

/-- The formatted result built for a surviving candidate. -/
def mkResult (c : Candidate) (s : ℚ) : QueryResult :=
  ⟨c.cid, c.doc, c.meta, s⟩

/-- The result-processing loop of `RAGQueryEngine.query`: for each candidate
in the index's order, compute the similarity (propagating a division error),
skip it when below the threshold, otherwise append it and stop as soon as
`top_k` results have been collected.  `n` is the number collected so far. -/
def processResults (minScore : ℚ) (topK : Nat) : List Candidate → Nat → Option (List QueryResult)
  | [], _ => some []
  | c :: rest, n =>
    match similarityScore c.dist with
    | none => none
    | some s =>
      if s < minScore then processResults minScore topK rest n
      else if n + 1 ≥ topK then some [mkResult c s]
      else (processResults minScore topK rest (n + 1)).map (mkResult c s :: ·)

/-- Model of `RAGQueryEngine.query`: apply the falsy-defaulting to both
optional arguments, request `2 * top_k` candidates from the external index
(the `where` filter is abstracted into `index` itself), and run the
processing loop.  The embedding-model call only produces the query vector
consumed by `index` and is likewise abstracted into it. -/
def ragQuery (index : Nat → List Candidate) (topK : Option Nat) (minScore : Option ℚ) :
    Option (List QueryResult) :=
  processResults (effMinScore minScore) (effTopK topK) (index (2 * effTopK topK)) 0

/-!
Structure parser (document-parser/scripts/parse_document_structure.py).
-/

/-- Model of the parser's `count_tokens`: `int(len(text.split()) * 1.3)`.
The float product `w * 1.3` truncates to `13 * w / 10` (Nat division) for
every word count reachable here: 1.3's double is above 13/10 by less than one
part in 10^16, so truncation agrees with the exact rational floor. -/
def countTokensEst (text : Str) : Nat :=
  13 * wordCount text / 10

/-- A heading record of `extract_headers`: nesting level, stripped title, and
1-based line number. -/
structure Header where
  level : Nat
  title : Str
  lineNum : Nat
deriving DecidableEq, Repr

/-- Model of `re.match(r'^(#{1,6})\s+(.+)$', line.strip())`: one to six
leading hash marks (a seventh makes every backtracking attempt fail), then at
least one whitespace character, then the title group, which is stripped. -/
def headerMatch (line : Str) : Option (Nat × Str) :=
  let s := pyStrip line
  let c := (s.takeWhile (· = '#')).length
  if 1 ≤ c ∧ c ≤ 6 then
    (hashTitleAfter (s.drop c)).map fun t => (c, pyStrip t)
  else none

/-- Model of `extract_headers`: scan the lines with 1-based numbering. -/
def extractHeaders (content : Str) : List Header :=
  (pyLines content).enum.filterMap fun p =>
    (headerMatch p.2).map fun lt => ⟨lt.1, lt.2, p.1 + 1⟩

/-- A section record of `build_section_hierarchy`.  The string id `"sec_i"` is
modelled by the index `i` itself (the numbering is the only content of the
id). -/
structure DocSection where
  sid : Nat
  title : Str
  level : Nat
  parentId : Option Nat
  startLine : Nat
  endLine : Nat
  tokenCount : Nat
  content : Str
  children : List Nat
deriving DecidableEq, Repr

/-- The parent-resolution loop `for j in range(i - 1, -1, -1)`: walking
backward from `j - 1`, the first header with level strictly below `lvl`. -/
def findParent (headers : List Header) (lvl : Nat) : Nat → Option Nat
  | 0 => none
  | j + 1 =>
    match headers.get? j with
    | some hj => if hj.level < lvl then some j else findParent headers lvl j
    | none => findParent headers lvl j

/-- The section object built for header `i` (children still empty): the
content slice is `lines[start_line:end_line]` exactly as in the source, with
`start_line` the header's 1-based line number and `end_line` the next
header's 1-based line number minus one, or the number of lines for the last
header. -/
def mkSection (lines : List Str) (headers : List Header) (i : Nat) : DocSection :=
  match headers.get? i with
  | some h =>
    let startLine := h.lineNum
    let endLine :=
      match headers.get? (i + 1) with
      | some h2 => h2.lineNum - 1
      | none => lines.length
    let sectionContent := joinLines ((lines.drop startLine).take (endLine - startLine))
    { sid := i
      title := h.title
      level := h.level
      parentId := findParent headers h.level i
      startLine := startLine
      endLine := endLine
      tokenCount := countTokensEst sectionContent
      content := sectionContent
      children := [] }
  | none =>
    { sid := i, title := [], level := 0, parentId := none, startLine := 0
      endLine := 0, tokenCount := 0, content := [], children := [] }

/-- The children-building pass of `build_section_hierarchy`: a section's
children are the ids of the sections (scanned in order) whose `parent_id`
equals its id. -/
def withChildren (secs0 : List DocSection) (s : DocSection) : DocSection :=
  { s with children := secs0.filterMap fun o =>
      if o.parentId = some s.sid then some o.sid else none }

/-- Model of `build_section_hierarchy`: build one section per header, then
fill every section's children list by scanning all sections in order for
those whose `parent_id` equals its id. -/
def buildSectionHierarchy (content : Str) (headers : List Header) : List DocSection :=
  let lines := pyLines content
  let secs0 := (List.range headers.length).map (mkSection lines headers)
  secs0.map (withChildren secs0)

/-- The full parse of a document: `build_section_hierarchy` applied to the
extracted headers, as in the script's `main`. -/
def sectionsOf (content : Str) : List DocSection :=
  buildSectionHierarchy content (extractHeaders content)

/-- The parent of section `j` in the hierarchy built for `content`. -/
def parentAt (content : Str) (j : Nat) : Option Nat :=
  match (sectionsOf content).get? j with
  | some s => s.parentId
  | none => none

/-- The level of section `j` in the hierarchy built for `content`. -/
def levelAt (content : Str) (j : Nat) : Option Nat :=
  match (sectionsOf content).get? j with
  | some s => some s.level
  | none => none

/-- The parent edge relation of the built hierarchy: `sectionEdge content a b`
holds when section `a`'s `parent_id` names section `b`. -/
def sectionEdge (content : Str) (a b : Nat) : Prop :=
  parentAt content a = some b

/-!
Claim-side definitions.  Each of the following is written from the words of a
claim (or of its amendment), to be compared against the embedded code above.
-/

/-- Claim C2's property, as stated: every chunk's `chunk_index` equals its
0-based position in the list. -/
def chunkIndexIsFinalPos (cs : List Chunk) : Prop :=
  cs.map (·.chunkIndex) = List.range cs.length

/-- Claim C5's abstract, as stated: the nearest sentence-terminating
punctuation found searching backward from the end — i.e. the latest among the
last occurrences of the three markers — truncates the abstract whenever it
lies past 70% of its length. -/
def specNearestAbstract {τ : Type} (tk : Tokenizer τ) (content : Str) : Str :=
  let abstract := tk.decode ((tk.encode content).take Config.abstractMaxTokens)
  let candidates := [rfindPos ". ".data abstract, rfindPos "! ".data abstract,
    rfindPos "? ".data abstract].filterMap id
  match candidates.max? with
  | some p => if 10 * p > 7 * abstract.length then abstract.take (p + 1) else abstract
  | none => abstract

/-- Claim C5 amended: the markers are tried in the fixed order
`'. '`, `'! '`, `'? '`, and the first whose last occurrence lies past 70% of
the abstract truncates it (no later marker is considered). -/
def orderedMarkerAbstract {τ : Type} (tk : Tokenizer τ) (content : Str) : Str :=
  let abstract := tk.decode ((tk.encode content).take Config.abstractMaxTokens)
  (([". ".data, "! ".data, "? ".data].findSome? (tryMarker abstract)).getD abstract)

/-- Lines of 1-based number `n` with `lo ≤ n ≤ hi`, written as a direct scan
with explicit line numbering (`n` is the number of the first line of the
remaining list). -/
def linesInRangeGo (lo hi : Nat) : Nat → List Str → List Str
  | _, [] => []
  | n, x :: xs =>
    (if lo ≤ n ∧ n ≤ hi then [x] else []) ++ linesInRangeGo lo hi (n + 1) xs

/-- Claim C4, as stated: section `i`'s content spans from its heading's own
line through the line immediately preceding the next heading of any level
(through the last line of the document for the final heading), all in the
1-based numbering of `extract_headers`. -/
def specSpanFromHeadingLine (content : Str) : List Str :=
  let lines := pyLines content
  let headers := extractHeaders content
  (List.range headers.length).map fun i =>
    match headers.get? i with
    | some h =>
      let hi :=
        match headers.get? (i + 1) with
        | some h2 => h2.lineNum - 1
        | none => lines.length
      joinLines (linesInRangeGo h.lineNum hi 1 lines)
    | none => []

/-- Claim C4 amended: section `i`'s content spans from the line immediately
after its heading's own line through the line immediately preceding the next
heading of any level (through the last line for the final heading). -/
def specSpanAfterHeadingLine (content : Str) : List Str :=
  let lines := pyLines content
  let headers := extractHeaders content
  (List.range headers.length).map fun i =>
    match headers.get? i with
    | some h =>
      let hi :=
        match headers.get? (i + 1) with
        | some h2 => h2.lineNum - 1
        | none => lines.length
      joinLines (linesInRangeGo (h.lineNum + 1) hi 1 lines)
    | none => []

/-!
Concrete inputs used by the counterexample, failing-input and witness
theorems below.
-/

/-- A markdown document with three H2 sections of 65 exact tokens each under
the character tokenizer: the first is below the 200-token minimum, so the
merge pass joins it with the second, and the third chunk survives unmerged. -/
def c2doc : Str :=
  "## A\n".data ++ List.replicate 60 'a' ++ "\n## B\n".data ++ List.replicate 60 'b'
    ++ "\n## C\n".data ++ List.replicate 60 'c'

/-- A two-heading document for the section-span claim. -/
def c4doc : Str := "# A\nbody\n# B\ntail".data

/-- A single-section document whose content (58 characters) has its last
`". "` at index 53 and its last `"! "` at index 55, both past 70% of the
length. -/
def c5doc : Str := "## T\n".data ++ List.replicate 48 'a' ++ ". ! z".data

/-- The metadata-extraction example line from the spec, as the whole document
text. -/
def c3content : Str := "> **Service:** checkout | **Severity:** SEV2".data

/-- A storage path whose `/runbooks/` segment classifies it as a runbook. -/
def c3path : Str := "wiki/runbooks/payments.md".data

/-- A four-heading document (levels 1, 2, 3, 2) exercising parent resolution
and children collection. -/
def c8doc : Str := "# A\n## B\n### C\n## D".data

/-- A 1000-token document under the character tokenizer: the spec's
sliding-window example (window 512, overlap 50). -/
def doc1000 : Str := List.replicate 1000 'a'

/-- A concrete external index for the query-pipeline witness: six candidates
(the over-fetch amount for the default top-k of 3) with non-negative
distances 0, 9, 1, 3, 2, 5. -/
def c7Index (n : Nat) : List Candidate :=
  (List.take n
    [⟨"r0".data, "d0".data, [], 0⟩, ⟨"r1".data, "d1".data, [], 9⟩,
     ⟨"r2".data, "d2".data, [], 1⟩, ⟨"r3".data, "d3".data, [], 3⟩,
     ⟨"r4".data, "d4".data, [], 2⟩, ⟨"r5".data, "d5".data, [], 5⟩])

/-!
Theorems.  Lemmas named `lem_...` are shared helpers; the remaining theorems
settle the claims C1 through C10.
-/

/-- Once the sliding-window loop of `NaiveChunker.chunk` is running
(`start < total`), it runs forever: the next start,
`min(start + 512, total) - 50`, is again strictly below the total, so no
amount of fuel reaches the exit condition. -/
theorem lem_naive_nonterm {τ : Type} (tk : Tokenizer τ) (tokens : List τ) :
    ∀ (fuel : Nat) (start : Int) (idx : Nat), start < (tokens.length : Int) →
      naiveLoopFuel tk tokens fuel start idx = none := by
  intro fuel
  induction fuel with
  | zero =>
    intro start idx h
    simp only [naiveLoopFuel]
    rw [if_pos h]
  | succ n ih =>
    intro start idx h
    have he : min (start + (Config.naiveChunkSize : Int)) (tokens.length : Int)
        - (Config.naiveOverlap : Int) < (tokens.length : Int) := by
      have hm := min_le_right (start + (Config.naiveChunkSize : Int)) ((tokens.length : Int))
      simp only [Config.naiveOverlap]
      omega
    simp only [naiveLoopFuel, if_pos h]
    rw [ih _ (idx + 1) he]
    rfl

/-- C1: the claim asserts that the naive sliding-window chunker terminates
whenever overlap < window, and that window 512 / overlap 50 on a 1000-token
document yields exactly the three chunks [0,512), [462,974), [924,1000).  The
code instead sets `start = min(start + 512, total) - 50`, which stays strictly
below the total once the final window is clipped, so the loop never exits: on
the 1000-token document no amount of fuel makes the loop terminate. -/
theorem naive_window_c1_code_bug :
    ∀ fuel : Nat, naiveChunkFuel charTok doc1000 fuel = none := by
  intro fuel
  have hl : (charTok.encode doc1000).length = 1000 := by
    show (List.replicate 1000 'a').length = 1000
    exact List.length_replicate 1000 'a'
  have h : (0 : Int) < ((charTok.encode doc1000).length : Int) := by
    rw [hl]
    norm_num
  exact lem_naive_nonterm charTok (charTok.encode doc1000) fuel 0 0 h

/-- C3: on the document consisting of the single line
`> **Service:** checkout | **Severity:** SEV2` the extractor yields
`service = "checkout"` and `service_name = "checkout"`, but no `severity`
field at all: the first match consumes through the pipe, and the regex
requires a literal `>` before each key, which the pipe-delimited continuation
does not have.  The claim (and the code's own comment documenting the
`> **Service:** value | **Env:** value` format) expects `severity = "SEV2"`
as well. -/
theorem metadata_extraction_c3_code_bug :
    dictGet (extractFromContent c3content c3path) "service".data = some "checkout".data ∧
    dictGet (extractFromContent c3content c3path) "service_name".data = some "checkout".data ∧
    dictGet (extractFromContent c3content c3path) "severity".data = none := by
  decide

/-- C6: the retrieval scorer maps every non-negative rational distance `d` to
`1 / (1 + d)` without raising, the score lies in (0, 1], equals 1 exactly at
distance 0, and is strictly decreasing in the distance. -/
theorem retrieval_score_c6 :
    (∀ d : ℚ, 0 ≤ d → similarityScore d = some (1 / (1 + d)) ∧
      0 < 1 / (1 + d) ∧ 1 / (1 + d) ≤ 1) ∧
    similarityScore 0 = some 1 ∧
    (∀ d1 d2 : ℚ, 0 ≤ d1 → d1 < d2 → 1 / (1 + d2) < 1 / (1 + d1)) := by
  refine ⟨?_, ?_, ?_⟩
  · intro d hd
    have h1 : (0 : ℚ) < 1 + d := by linarith
    refine ⟨by simp [similarityScore, ne_of_gt h1], by positivity, ?_⟩
    rw [div_le_one h1]
    linarith
  · norm_num [similarityScore]
  · intro d1 d2 h1 h2
    exact one_div_lt_one_div_of_lt (by linarith) (by linarith)

/-- Witness for C6: distance 9 scores 1/10 (the spec's example), inside
(0, 1], and scores strictly below the distance-0 score of 1. -/
theorem retrieval_score_c6_witness :
    ((0 : ℚ) ≤ 9 ∧ similarityScore 9 = some (1 / 10) ∧
      (0 : ℚ) < 1 / 10 ∧ (1 / 10 : ℚ) ≤ 1) ∧
    ((0 : ℚ) ≤ 0 ∧ (0 : ℚ) < 9 ∧ 1 / (1 + (9 : ℚ)) < 1 / (1 + (0 : ℚ))) := by
  constructor
  · have he := (retrieval_score_c6.1 9 (by norm_num)).1
    norm_num at he
    exact ⟨by norm_num, he, by norm_num, by norm_num⟩
  · exact ⟨le_refl 0, by norm_num, retrieval_score_c6.2.2 0 9 (by norm_num) (by norm_num)⟩

/-- C10: passing an explicit `top_k = 0` or `min_score = 0.0` is
indistinguishable from omitting them — the Python `or`-defaulting treats both
falsy values as absent — and no argument can make the effective top-k or the
effective threshold zero. -/
theorem query_falsy_defaults_c10 :
    effTopK (some 0) = Config.defaultTopK ∧
    effMinScore (some 0) = Config.minSimilarityScore ∧
    (∀ index : Nat → List Candidate,
      ragQuery index (some 0) (some 0) = ragQuery index none none) ∧
    (∀ t : Option Nat, effTopK t ≠ 0) ∧
    (∀ m : Option ℚ, effMinScore m ≠ 0) := by
  refine ⟨rfl, by simp [effMinScore], fun index => by simp [ragQuery, effTopK, effMinScore], ?_, ?_⟩
  · intro t
    cases t with
    | none => simp [effTopK, Config.defaultTopK]
    | some k =>
      simp only [effTopK]
      split
      · simp [Config.defaultTopK]
      · assumption
  · intro m
    cases m with
    | none => norm_num [effMinScore, Config.minSimilarityScore]
    | some q =>
      simp only [effMinScore]
      split
      · norm_num [Config.minSimilarityScore]
      · assumption

/-- C9: the factory maps each of the three recognized strategy names to its
strategy with no fallback, and any other name produces the configuration
error; threaded through `index_directory` (which consults the factory before
touching any file) the same error is the whole result, with no document
processed. -/
theorem chunker_factory_c9 :
    getChunker (some "layout-aware".data) = .ok .layoutAware ∧
    getChunker (some "naive".data) = .ok .naive ∧
    getChunker (some "abstract-first".data) = .ok .abstractFirst ∧
    (∀ s : Str,
      s ∉ ["layout-aware".data, "naive".data, "abstract-first".data] →
      ∀ (τ : Type) (tk : Tokenizer τ) (fuel : Nat) (docs : List Str),
        getChunker (some s) = .error ("Unknown chunking strategy: ".data ++ s) ∧
        indexDirectory tk fuel (some s) docs =
          .error ("Unknown chunking strategy: ".data ++ s)) := by
  refine ⟨rfl, rfl, rfl, ?_⟩
  intro s hs τ tk fuel docs
  simp only [List.mem_cons, not_or] at hs
  obtain ⟨h1, h2, h3, -⟩ := hs
  have hg : getChunker (some s) = .error ("Unknown chunking strategy: ".data ++ s) := by
    simp only [getChunker, Option.getD]
    rw [if_neg h1, if_neg h2, if_neg h3]
  exact ⟨hg, by simp [indexDirectory, hg]⟩

/-- An H3 sub-split batch preserves the invariant that the accumulated chunk
indices are exactly 0, 1, ..., length - 1: each appended chunk is indexed by
the running length. -/
theorem lem_appendH3_indices {τ : Type} (tk : Tokenizer τ) (title : Str) :
    ∀ (subs : List (Str × Str)) (acc : List Chunk),
      acc.map (·.chunkIndex) = List.range acc.length →
      (appendH3Subs tk title subs acc).map (·.chunkIndex) =
        List.range (appendH3Subs tk title subs acc).length := by
  intro subs
  induction subs with
  | nil =>
    intro acc h
    simpa [appendH3Subs] using h
  | cons s rest ih =>
    intro acc h
    obtain ⟨st, sc⟩ := s
    rw [appendH3Subs]
    apply ih
    rw [List.map_append, h, List.length_append]
    simp [List.range_succ]

/-- The pre-merge pass of `LayoutAwareChunker.chunk` preserves the invariant
that the accumulated chunk indices are exactly 0, 1, ..., length - 1. -/
theorem lem_layoutGo_indices {τ : Type} (tk : Tokenizer τ) :
    ∀ (secs : List (Str × Str)) (acc : List Chunk),
      acc.map (·.chunkIndex) = List.range acc.length →
      (layoutGo tk secs acc).map (·.chunkIndex) =
        List.range (layoutGo tk secs acc).length := by
  intro secs
  induction secs with
  | nil =>
    intro acc h
    simpa [layoutGo] using h
  | cons s rest ih =>
    intro acc h
    obtain ⟨title, sc⟩ := s
    by_cases h1 : tkCount tk sc < 50
    · simp only [layoutGo, if_pos h1]
      exact ih acc h
    · by_cases h2 : tkCount tk sc > Config.layoutAwareMaxTokens
      · simp only [layoutGo, if_neg h1, if_pos h2]
        exact ih _ (lem_appendH3_indices tk title _ acc h)
      · simp only [layoutGo, if_neg h1, if_neg h2]
        apply ih
        rw [List.map_append, h, List.length_append]
        simp [List.range_succ]

/-- The merge pass only deletes entries from the sequence of chunk indices:
a merged pair contributes the first constituent's index (the `{**current}`
spread keeps `chunk_index`), and every other chunk keeps its own, so the
output indices form a subsequence of the input indices. -/
theorem lem_merge_sublist {τ : Type} (tk : Tokenizer τ) :
    ∀ cs : List Chunk,
      ((mergeSmallChunks tk cs).map (·.chunkIndex)).Sublist (cs.map (·.chunkIndex))
  | [] => by simp [mergeSmallChunks]
  | [c] => by simp [mergeSmallChunks]
  | c :: d :: rest => by
    by_cases h : c.tokens < Config.layoutAwareMinTokens
    · simp only [mergeSmallChunks, if_pos h, List.map_cons]
      exact List.Sublist.cons₂ _ (List.Sublist.cons _ (lem_merge_sublist tk rest))
    · simp only [mergeSmallChunks, if_neg h, List.map_cons]
      exact List.Sublist.cons₂ _ (lem_merge_sublist tk (d :: rest))

/-- C2 counterexample: on a document with three H2 sections of 65 tokens each
(under the character tokenizer), the first two merge and the surviving third
chunk sits at final position 1 while its `chunk_index` is still 2 — the
returned list's indices are [0, 2], not [0, 1], so `chunk_index` is not the
position in final output order. -/
theorem chunk_index_c2_counterexample :
    ¬ chunkIndexIsFinalPos (layoutChunk charTok c2doc) := by
  unfold chunkIndexIsFinalPos
  decide

/-- C2 amended: `chunk_index` is the chunk's 0-based position in the
pre-merge sequence, not in the final output order: before the merge pass the
indices are exactly 0, 1, ..., n-1, and the merge pass keeps each surviving
chunk's pre-merge index (a merged chunk keeping the first constituent's), so
the final indices are a subsequence of the pre-merge positions and a chunk
following a merged pair retains an index larger than its final position. -/
theorem chunk_index_c2_amended (τ : Type) (tk : Tokenizer τ) (content : Str) :
    (layoutChunkPre tk content).map (·.chunkIndex) =
      List.range (layoutChunkPre tk content).length ∧
    ((layoutChunk tk content).map (·.chunkIndex)).Sublist
      ((layoutChunkPre tk content).map (·.chunkIndex)) := by
  constructor
  · exact lem_layoutGo_indices tk _ [] (by simp)
  · simp only [layoutChunk, Config.layoutAwareMergeSmall, if_true]
    exact lem_merge_sublist tk _

/-- The unimplemented non-extractive mode falls through to the extractive
path, so abstract generation is the extractive abstract unconditionally. -/
theorem lem_generate_eq_extractive {τ : Type} (tk : Tokenizer τ) (content : Str) :
    generateAbstract tk content = extractiveAbstract tk content := by
  simp [generateAbstract]

/-- The literal marker loop of `_extractive_abstract` (try `'. '`, then
`'! '`, then `'? '`, breaking at the first that qualifies) computes the same
abstract as its ordered-marker restatement. -/
theorem lem_extractive_eq_ordered {τ : Type} (tk : Tokenizer τ) (content : Str) :
    extractiveAbstract tk content = orderedMarkerAbstract tk content := by
  unfold extractiveAbstract orderedMarkerAbstract
  cases h1 : tryMarker (tk.decode ((tk.encode content).take Config.abstractMaxTokens)) ". ".data with
  | some r => simp [List.findSome?_cons, h1]
  | none =>
    cases h2 : tryMarker (tk.decode ((tk.encode content).take Config.abstractMaxTokens)) "! ".data with
    | some r => simp [List.findSome?_cons, h1, h2]
    | none =>
      cases h3 : tryMarker (tk.decode ((tk.encode content).take Config.abstractMaxTokens)) "? ".data with
      | some r => simp [List.findSome?_cons, h1, h2, h3]
      | none => simp [List.findSome?_cons, List.findSome?_nil, h1, h2, h3]

/-- C5 counterexample: on a document whose single chunk content has its last
`". "` at index 53 and a later `"! "` at index 55 (both past 70% of the
58-character abstract), the code truncates at the `". "` — the first marker in
its fixed trial order — while the claim's nearest-from-the-end terminator is
the `"! "`, so the produced abstract differs from the claimed one. -/
theorem abstract_truncation_c5_counterexample :
    ¬ ((abstractFirstChunk charTok c5doc).map (·.abstract) =
      (abstractFirstChunk charTok c5doc).map
        (fun ch => some (specNearestAbstract charTok ch.content))) := by
  decide

/-- C5 amended: the abstract is the decoded first-N-token prefix truncated at
the last occurrence of `'. '` when that occurrence lies past 70% of the
abstract, else at the last `'! '` under the same test, else at the last
`'? '`, else kept untruncated — the three markers are tried in that fixed
order and the first qualifying one wins, not the terminator nearest the
end. -/
theorem abstract_truncation_c5_amended (τ : Type) (tk : Tokenizer τ) (content : Str) :
    (abstractFirstChunk tk content).map (·.abstract) =
      (layoutChunk tk content).map (fun ch => some (orderedMarkerAbstract tk ch.content)) ∧
    (abstractFirstChunk tk content).map (·.abstractTokens) =
      (layoutChunk tk content).map
        (fun ch => some (tkCount tk (orderedMarkerAbstract tk ch.content))) := by
  constructor
  · unfold abstractFirstChunk
    rw [List.map_map]
    congr 1
    funext ch
    simp [Function.comp, lem_generate_eq_extractive, lem_extractive_eq_ordered]
  · unfold abstractFirstChunk
    rw [List.map_map]
    congr 1
    funext ch
    simp [Function.comp, lem_generate_eq_extractive, lem_extractive_eq_ordered]

/-- The effective top-k is always positive: both defaulting branches yield
DEFAULT_TOP_K = 3 and the remaining branch is a nonzero argument. -/
theorem lem_effTopK_pos : ∀ t : Option Nat, 0 < effTopK t := by
  intro t
  cases t with
  | none => norm_num [effTopK, Config.defaultTopK]
  | some k =>
    simp only [effTopK]
    split
    · norm_num [Config.defaultTopK]
    · omega

/-- The result-processing loop of the query engine, on candidates of
non-negative distance and with fewer collected results than `top_k`, returns
exactly the first `top_k - n` threshold-surviving candidates in their
original order, formatted. -/
theorem lem_processResults (m : ℚ) (topK : Nat) :
    ∀ (cands : List Candidate) (n : Nat), n < topK → (∀ c ∈ cands, 0 ≤ c.dist) →
      processResults m topK cands n =
        some (((cands.filter (fun c => decide (m ≤ 1 / (1 + c.dist)))).take (topK - n)).map
          (fun c => mkResult c (1 / (1 + c.dist)))) := by
  intro cands
  induction cands with
  | nil =>
    intro n hn hd
    simp [processResults]
  | cons c rest ih =>
    intro n hn hd
    have hc : (0 : ℚ) ≤ c.dist := hd c (by simp)
    have hrest : ∀ x ∈ rest, (0 : ℚ) ≤ x.dist := fun x hx => hd x (by simp [hx])
    have hne : (1 : ℚ) + c.dist ≠ 0 := by positivity
    have hsim : similarityScore c.dist = some (1 / (1 + c.dist)) := by
      simp [similarityScore, hne]
    by_cases hlt : 1 / (1 + c.dist) < m
    · have hfilter : decide (m ≤ 1 / (1 + c.dist)) = false :=
        decide_eq_false (not_le.mpr hlt)
      have hfc : List.filter (fun x => decide (m ≤ 1 / (1 + x.dist))) (c :: rest) =
          List.filter (fun x => decide (m ≤ 1 / (1 + x.dist))) rest := by
        rw [List.filter_cons_of_neg]
        simpa using not_le.mpr hlt
      simp only [processResults, hsim, if_pos hlt]
      rw [ih n hn hrest, hfc]
    · have hfilter : decide (m ≤ 1 / (1 + c.dist)) = true :=
        decide_eq_true (not_lt.mp hlt)
      by_cases hfull : n + 1 ≥ topK
      · have htk : topK - n = 1 := by omega
        have hfc : List.filter (fun x => decide (m ≤ 1 / (1 + x.dist))) (c :: rest) =
            c :: List.filter (fun x => decide (m ≤ 1 / (1 + x.dist))) rest := by
          rw [List.filter_cons_of_pos]
          simpa using not_lt.mp hlt
        simp only [processResults, hsim, if_neg hlt, if_pos hfull]
        rw [hfc, htk]
        simp
      · have hlt2 : n + 1 < topK := by omega
        have htk : topK - n = (topK - (n + 1)) + 1 := by omega
        have hfc : List.filter (fun x => decide (m ≤ 1 / (1 + x.dist))) (c :: rest) =
            c :: List.filter (fun x => decide (m ≤ 1 / (1 + x.dist))) rest := by
          rw [List.filter_cons_of_pos]
          simpa using not_lt.mp hlt
        simp only [processResults, hsim, if_neg hlt, if_neg hfull]
        rw [ih (n + 1) hlt2 hrest, hfc, htk]
        simp

/-- C7: the query engine requests exactly `2 * top_k` candidates from the
external index, and — whenever those candidates carry the non-negative
distances the external contract promises — returns exactly the first `top_k`
candidates that survive the minimum-score filter, in the index's own order
(the result equals take-after-filter, so no re-sorting), without error; in
particular the result has at most `top_k` entries, and fewer survivors simply
yield a shorter list. -/
theorem query_pipeline_c7 (index : Nat → List Candidate) (topK : Option Nat)
    (minScore : Option ℚ)
    (hd : ∀ c ∈ index (2 * effTopK topK), 0 ≤ c.dist) :
    ragQuery index topK minScore =
      some ((((index (2 * effTopK topK)).filter
          (fun c => decide (effMinScore minScore ≤ 1 / (1 + c.dist)))).take
            (effTopK topK)).map
        (fun c => mkResult c (1 / (1 + c.dist)))) ∧
    ∀ rs, ragQuery index topK minScore = some rs → rs.length ≤ effTopK topK := by
  have h0 : 0 < effTopK topK := lem_effTopK_pos topK
  have heq := lem_processResults (effMinScore minScore) (effTopK topK)
    (index (2 * effTopK topK)) 0 h0 hd
  rw [Nat.sub_zero] at heq
  constructor
  · simp only [ragQuery]
    rw [heq]
  · intro rs hrs
    simp only [ragQuery] at hrs
    rw [heq] at hrs
    injection hrs with h
    rw [← h]
    simp only [List.length_map]
    exact le_trans (List.length_take_le _ _) (by omega)

/-- Witness for C7: on a concrete six-candidate index (distances 0, 9, 1, 3,
2, 5, all non-negative), the default query keeps the candidates scoring 1,
1/2 and 1/3 — the survivors of the 0.3 threshold, in index order, truncated
to the default top-k of 3. -/
theorem query_pipeline_c7_witness :
    (∀ c ∈ c7Index (2 * effTopK none), 0 ≤ c.dist) ∧
    ragQuery c7Index none none =
      some [⟨"r0".data, "d0".data, [], 1⟩, ⟨"r2".data, "d2".data, [], 1/2⟩,
            ⟨"r4".data, "d4".data, [], 1/3⟩] := by
  have hd : ∀ c ∈ c7Index (2 * effTopK none), 0 ≤ c.dist := by decide
  refine ⟨hd, ?_⟩
  rw [(query_pipeline_c7 c7Index none none hd).1]
  norm_num [c7Index, effTopK, effMinScore, Config.defaultTopK, Config.minSimilarityScore, mkResult]

/-- The 1-based line-number scan `linesInRangeGo` computes a drop/take slice:
starting the numbering at `n`, keeping the lines numbered `lo` through `hi`
drops `lo - n` lines and takes `hi + 1 - max lo n` of the rest. -/
theorem lem_linesInRange :
    ∀ (l : List Str) (n lo hi : Nat),
      linesInRangeGo lo hi n l = (l.drop (lo - n)).take (hi + 1 - max lo n) := by
  intro l
  induction l with
  | nil =>
    intro n lo hi
    simp [linesInRangeGo]
  | cons x xs ih =>
    intro n lo hi
    rw [linesInRangeGo]
    by_cases h1 : lo ≤ n ∧ n ≤ hi
    · rw [if_pos h1, ih (n + 1) lo hi]
      obtain ⟨hlo, hhi⟩ := h1
      have e1 : lo - n = 0 := by omega
      have e2 : lo - (n + 1) = 0 := by omega
      have e3 : max lo n = n := by omega
      have e4 : max lo (n + 1) = n + 1 := by omega
      have e5 : hi + 1 - n = (hi + 1 - (n + 1)) + 1 := by omega
      rw [e1, e2, e3, e4, e5]
      simp [List.take_succ_cons]
    · rw [if_neg h1, ih (n + 1) lo hi]
      rcases Nat.lt_or_ge n lo with h2 | h2
      · have e1 : lo - n = (lo - (n + 1)) + 1 := by omega
        have e3 : max lo n = lo := by omega
        have e4 : max lo (n + 1) = lo := by omega
        rw [e1, e3, e4]
        simp [List.drop_succ_cons]
      · have h3 : hi < n := by omega
        have e4 : hi + 1 - max lo (n + 1) = 0 := by omega
        have e5 : hi + 1 - max lo n = 0 := by omega
        rw [e4, e5]
        simp

/-- C4 counterexample: on the document `"# A\nbody\n# B\ntail"` the first
section's content is `"body"` — the heading's own line `"# A"` is not part of
it (the 1-based heading line number is used as a 0-based slice start), so the
produced contents differ from the claim's own-line-through-next-heading
spans. -/
theorem section_span_c4_counterexample :
    ¬ ((sectionsOf c4doc).map (·.content) = specSpanFromHeadingLine c4doc) := by
  decide

/-- C4 amended: every section's content spans from the line immediately
after its heading's own line through the line immediately preceding the next
heading of any level, and through the end of the document for the last
heading (the heading line itself is excluded from the content). -/
theorem section_span_c4_amended (content : Str) :
    (sectionsOf content).map (·.content) = specSpanAfterHeadingLine content := by
  unfold sectionsOf buildSectionHierarchy specSpanAfterHeadingLine
  rw [List.map_map, List.map_map]
  apply List.map_congr_left
  intro i hi
  rw [List.mem_range] at hi
  cases hg : (extractHeaders content).get? i with
  | none =>
    exact absurd (List.get?_eq_none.mp hg) (by omega)
  | some h =>
    simp only [Function.comp, withChildren, mkSection, hg]
    rw [lem_linesInRange]
    have e1 : h.lineNum + 1 - 1 = h.lineNum := by omega
    have e2 : max (h.lineNum + 1) 1 = h.lineNum + 1 := by omega
    rw [e1, e2]
    cases hg2 : (extractHeaders content).get? (i + 1) with
    | none =>
      simp only [hg2]
      have e3 : (pyLines content).length + 1 - (h.lineNum + 1) =
          (pyLines content).length - h.lineNum := by omega
      rw [e3]
    | some h2 =>
      simp only [hg2]
      have e3 : h2.lineNum - 1 + 1 - (h.lineNum + 1) = h2.lineNum - 1 - h.lineNum := by omega
      rw [e3]

/-- The backward parent scan returns the nearest preceding header of strictly
lower level: the result is an earlier index, its header's level is strictly
below the scanned level, and every header strictly between has level at least
the scanned level. -/
theorem lem_findParent (headers : List Header) (lvl : Nat) :
    ∀ (j p : Nat), findParent headers lvl j = some p →
      p < j ∧ ∃ hp, headers.get? p = some hp ∧ hp.level < lvl ∧
        ∀ k hk, p < k → k < j → headers.get? k = some hk → lvl ≤ hk.level := by
  intro j
  induction j with
  | zero =>
    intro p hfp
    simp [findParent] at hfp
  | succ j ih =>
    intro p hfp
    rw [findParent] at hfp
    cases hg : headers.get? j with
    | some hj =>
      simp only [hg] at hfp
      by_cases hl : hj.level < lvl
      · rw [if_pos hl] at hfp
        injection hfp with hpe
        subst hpe
        refine ⟨Nat.lt_succ_self _, hj, hg, hl, ?_⟩
        intro k hk h1 h2 h3
        omega
      · rw [if_neg hl] at hfp
        obtain ⟨hpj, hp, hget, hlt, hnear⟩ := ih p hfp
        refine ⟨by omega, hp, hget, hlt, ?_⟩
        intro k hk h1 h2 h3
        rcases Nat.lt_or_ge k j with h4 | h4
        · exact hnear k hk h1 h4 h3
        · have hkj : k = j := by omega
          subst hkj
          rw [hg] at h3
          injection h3 with h3e
          subst h3e
          omega
    | none =>
      simp only [hg] at hfp
      obtain ⟨hpj, hp, hget, hlt, hnear⟩ := ih p hfp
      refine ⟨by omega, hp, hget, hlt, ?_⟩
      intro k hk h1 h2 h3
      rcases Nat.lt_or_ge k j with h4 | h4
      · exact hnear k hk h1 h4 h3
      · have hkj : k = j := by omega
        subst hkj
        rw [hg] at h3
        exact absurd h3 (by simp)

/-- `mkSection` gives index `i` the id `i` in both of its branches. -/
theorem lem_mkSection_sid (lines : List Str) (headers : List Header) (i : Nat) :
    (mkSection lines headers i).sid = i := by
  unfold mkSection
  cases headers.get? i with
  | some h => rfl
  | none => rfl

/-- The built section list, with its two construction passes exposed. -/
theorem lem_sectionsOf_eq (content : Str) :
    sectionsOf content =
      ((List.range (extractHeaders content).length).map
        (mkSection (pyLines content) (extractHeaders content))).map
        (withChildren ((List.range (extractHeaders content).length).map
          (mkSection (pyLines content) (extractHeaders content)))) := rfl

/-- Indexing the built section list below its length reaches the
children-completed section built for that index. -/
theorem lem_sections_get (content : Str) (j : Nat)
    (h : j < (extractHeaders content).length) :
    (sectionsOf content).get? j =
      some (withChildren
        ((List.range (extractHeaders content).length).map
          (mkSection (pyLines content) (extractHeaders content)))
        (mkSection (pyLines content) (extractHeaders content) j)) := by
  rw [lem_sectionsOf_eq]
  rw [List.get?_map, List.get?_map, List.get?_range h]
  rfl

/-- Below the header count, the parent pointer of the built hierarchy is the
parent pointer computed by `mkSection`. -/
theorem lem_parentAt_lt (content : Str) (j : Nat)
    (h : j < (extractHeaders content).length) :
    parentAt content j =
      (mkSection (pyLines content) (extractHeaders content) j).parentId := by
  unfold parentAt
  rw [lem_sections_get content j h]
  rfl

/-- At or beyond the header count there is no section and no parent. -/
theorem lem_parentAt_ge (content : Str) (j : Nat)
    (h : (extractHeaders content).length ≤ j) :
    parentAt content j = none := by
  unfold parentAt
  rw [lem_sectionsOf_eq]
  rw [List.get?_eq_none.mpr (by simpa using h)]

/-- Below the header count, the level of the built section is its header's
level. -/
theorem lem_levelAt_some (content : Str) (j : Nat) (hj : Header)
    (hg : (extractHeaders content).get? j = some hj) :
    levelAt content j = some hj.level := by
  have h : j < (extractHeaders content).length := by
    obtain ⟨h, -⟩ := List.get?_eq_some.mp hg
    exact h
  unfold levelAt
  rw [lem_sections_get content j h]
  simp only [withChildren, mkSection, hg]

/-- Every parent edge of the built hierarchy points to a strictly earlier
section. -/
theorem lem_edge_lt (content : Str) :
    ∀ a b, sectionEdge content a b → b < a := by
  intro a b h
  unfold sectionEdge at h
  rcases Nat.lt_or_ge a (extractHeaders content).length with ha | ha
  · rw [lem_parentAt_lt content a ha] at h
    unfold mkSection at h
    cases hg : (extractHeaders content).get? a with
    | some hA =>
      rw [hg] at h
      exact (lem_findParent (extractHeaders content) hA.level a b h).1
    | none =>
      rw [hg] at h
      exact absurd h (by simp)
  · rw [lem_parentAt_ge content a ha] at h
    exact absurd h (by simp)

/-- C8: in every built hierarchy, a present parent pointer names an earlier
section of strictly lower level and is the nearest such (everything strictly
between has level at least the child's); a section's children are exactly the
sections whose parent pointer names it; and the parent relation admits no
cycle. -/
theorem section_hierarchy_c8 (content : Str) :
    (∀ j p, parentAt content j = some p →
      p < j ∧ ∃ lp lj, levelAt content p = some lp ∧ levelAt content j = some lj ∧
        lp < lj ∧ ∀ k lk, p < k → k < j → levelAt content k = some lk → lj ≤ lk) ∧
    (∀ s, s ∈ sectionsOf content → ∀ j, j ∈ s.children ↔ parentAt content j = some s.sid) ∧
    (∀ j, ¬ Relation.TransGen (sectionEdge content) j j) := by
  refine ⟨?_, ?_, ?_⟩
  · intro j p hjp
    rcases Nat.lt_or_ge j (extractHeaders content).length with hj | hj
    · have hjp2 := hjp
      rw [lem_parentAt_lt content j hj] at hjp2
      unfold mkSection at hjp2
      cases hg : (extractHeaders content).get? j with
      | some hJ =>
        rw [hg] at hjp2
        obtain ⟨hpj, hP, hgp, hlev, hnear⟩ :=
          lem_findParent (extractHeaders content) hJ.level j p hjp2
        refine ⟨hpj, hP.level, hJ.level, lem_levelAt_some content p hP hgp,
          lem_levelAt_some content j hJ hg, hlev, ?_⟩
        intro k lk h1 h2 h3
        have hkn : k < (extractHeaders content).length := by omega
        cases hgk : (extractHeaders content).get? k with
        | some hK =>
          have := lem_levelAt_some content k hK hgk
          rw [this] at h3
          injection h3 with h3e
          subst h3e
          exact hnear k hK h1 h2 hgk
        | none =>
          exact absurd hgk (by rw [List.get?_eq_none]; omega)
      | none =>
        rw [hg] at hjp2
        exact absurd hjp2 (by simp)
    · rw [lem_parentAt_ge content j hj] at hjp
      exact absurd hjp (by simp)
  · intro s hs j
    rw [lem_sectionsOf_eq] at hs
    obtain ⟨s0, hs0, rfl⟩ := List.mem_map.mp hs
    obtain ⟨i, hi, rfl⟩ := List.mem_map.mp hs0
    rw [List.mem_range] at hi
    constructor
    · intro hj
      simp only [withChildren] at hj
      obtain ⟨o, ho, hoeq⟩ := List.mem_filterMap.mp hj
      by_cases hcond : o.parentId =
          some (mkSection (pyLines content) (extractHeaders content) i).sid
      · rw [if_pos hcond] at hoeq
        injection hoeq with hoe
        obtain ⟨i2, hi2, rfl⟩ := List.mem_map.mp ho
        rw [List.mem_range] at hi2
        rw [lem_mkSection_sid] at hoe
        subst hoe
        rw [lem_parentAt_lt content _ hi2]
        exact hcond
      · rw [if_neg hcond] at hoeq
        exact absurd hoeq (by simp)
    · intro hj
      rcases Nat.lt_or_ge j (extractHeaders content).length with hjn | hjn
      · simp only [withChildren]
        apply List.mem_filterMap.mpr
        refine ⟨mkSection (pyLines content) (extractHeaders content) j, ?_, ?_⟩
        · exact List.mem_map.mpr ⟨j, List.mem_range.mpr hjn, rfl⟩
        · rw [if_pos]
          · rw [lem_mkSection_sid]
          · rw [← lem_parentAt_lt content j hjn]
            exact hj
      · rw [lem_parentAt_ge content j hjn] at hj
        exact absurd hj (by simp)
  · have hlt : ∀ a b, Relation.TransGen (sectionEdge content) a b → b < a := by
      intro a b h
      induction h with
      | single h1 => exact lem_edge_lt content _ _ h1
      | tail h1 e ih => exact lt_trans (lem_edge_lt content _ _ e) ih
    intro j hj
    exact absurd (hlt j j hj) (lt_irrefl j)

/-- Witness for C8: on the document `"# A\n## B\n### C\n## D"` the parent of
section 2 (the level-3 heading C) is section 1 (the level-2 heading B), an
earlier, strictly-lower-level and nearest such section, and no parent chain
from section 2 returns to it. -/
theorem section_hierarchy_c8_witness :
    parentAt c8doc 2 = some 1 ∧
    (1 < 2 ∧ ∃ lp lj, levelAt c8doc 1 = some lp ∧ levelAt c8doc 2 = some lj ∧
      lp < lj ∧ ∀ k lk, 1 < k → k < 2 → levelAt c8doc k = some lk → lj ≤ lk) ∧
    ¬ Relation.TransGen (sectionEdge c8doc) 2 2 := by
  have h := section_hierarchy_c8 c8doc
  have hp : parentAt c8doc 2 = some 1 := by decide
  exact ⟨hp, h.1 2 1 hp, h.2.2 2⟩

/-- Witness for C9: the unrecognized name "bogus" makes both the factory and
directory indexing fail with the configuration error. -/
theorem chunker_factory_c9_witness :
    ("bogus".data ∉ ["layout-aware".data, "naive".data, "abstract-first".data]) ∧
    getChunker (some "bogus".data) =
      .error ("Unknown chunking strategy: ".data ++ "bogus".data) ∧
    indexDirectory charTok 0 (some "bogus".data) ["# doc".data] =
      .error ("Unknown chunking strategy: ".data ++ "bogus".data) := by
  refine ⟨by decide, ?_, ?_⟩
  · exact (chunker_factory_c9.2.2.2 "bogus".data (by decide) Char charTok 0 ["# doc".data]).1
  · exact (chunker_factory_c9.2.2.2 "bogus".data (by decide) Char charTok 0 ["# doc".data]).2

end RaggedWiki
